import Mathlib

/-!
Verification of the PulseQuiz backend core (src/backend/models.py and
src/backend/main.py) against its natural-language specification.

Shallow embedding conventions:
* Python dicts are association lists with the dict's insertion-order and
  replace-in-place update semantics (`dget` / `dset` / `sget` / `sset`).
* Python floats that hold elapsed seconds / thresholds / timestamps are
  modelled as rationals (ℚ); Python ints are `Int` (or `Nat` where the
  source value is provably non-negative, e.g. list indices).
* `sorted(key=...)` is modelled by a stable insertion sort (`ssort`) with
  the strict part of the key order, matching Python's stable-sort contract.
* HTTP handlers become `Session → args → Except Err Session`; every
  `raise HTTPException` in the source occurs before any mutation, and the
  embedding mirrors that order, so an error result leaves the state as it
  was.  Host-token verification (`403 Forbidden`) and session-code lookup
  (`404` on unknown code) are transport-level checks outside the claims
  and are not modelled; broadcasts, logging and websocket bookkeeping are
  effect-free for the session state and are dropped.
-/

namespace PulseQuiz

/-- Session phase, `Session.status` ('lobby' | 'playing' | 'revealed'). -/
inductive Status where
  | lobby
  | playing
  | revealed
  deriving DecidableEq, Repr

/-- `models.Question`. `correct` is an `Int` because `to_state` writes `-1`. -/
structure Question where
  question : String
  options : List String
  correct : Int
  explanation : Option String := none
  points : Int := 1
  deriving DecidableEq, Repr

/-- `models.Player`; `answers` and `answer_times` are the two per-question dicts. -/
structure Player where
  id : String
  nickname : String
  score : Int := 0
  answers : List (Nat × Int) := []
  answer_times : List (Nat × ℚ) := []
  deriving DecidableEq, Repr

/-- `models.ChallengeSubmission` (replies/votes omitted: no claim reads them). -/
structure ChallengeSubmission where
  playerId : String
  nickname : String
  questionIndex : Nat
  category : Option String := none
  note : Option String := none
  source : String := "review"
  createdAt : ℚ
  deriving DecidableEq, Repr

/-- `models.ChallengeResolution`. -/
structure ChallengeResolution where
  status : String := "open"
  verdict : Option String := none
  resolutionNote : Option String := none
  resolvedAt : Option ℚ := none
  resolvedBy : Option String := none
  published : Bool := false
  deriving DecidableEq, Repr

/-- `models.AIVerification`. -/
structure AIVerification where
  verdict : String
  confidence : ℚ
  rationale : String
  suggested_correction : Option String := none
  requestedAt : ℚ
  published : Bool := false
  publishedAt : Option ℚ := none
  deriving DecidableEq, Repr

/-- `models.ReconciliationPolicy`; `policy` stays a `String` as in the source
(`calculate_scores` branches on the string and falls through to the
exact-match rule on anything unrecognised). -/
structure ReconciliationPolicy where
  policy : String
  acceptedAnswers : Option (List Int) := none
  appliedAt : ℚ
  appliedBy : String
  deriving DecidableEq, Repr

/-- `models.ScoreAuditEntry`; `deltas` is the playerId → scoreDelta dict. -/
structure ScoreAuditEntry where
  questionIndex : Nat
  policy : String
  appliedAt : ℚ
  deltas : List (String × Int)
  deriving DecidableEq, Repr

/-- `models.GameSettings` (as rebuilt by `Session.to_state`). -/
structure GameSettings where
  timerMode : Bool
  timerSeconds : Nat
  autoProgressMode : Bool
  autoProgressPercent : Nat
  deriving DecidableEq, Repr

/-- The `Session` dataclass of models.py.  `code`, `host_token`, `observers`,
`timer_task` and the opaque `theme` payload are not modelled (transport,
auth and display concerns outside every claim). -/
structure Session where
  status : Status := .lobby
  current_question_index : Nat := 0
  players : List Player := []
  questions : List Question := []
  round_size : Nat := 10
  question_start_times : List (Nat × ℚ) := []
  timer_mode : Bool := false
  timer_seconds : Nat := 15
  timer_remaining : Option Int := none
  auto_progress_mode : Bool := false
  auto_progress_percent : Nat := 90
  challenges : List (Nat × List (String × ChallengeSubmission)) := []
  challenge_resolutions : List (Nat × ChallengeResolution) := []
  ai_verifications : List (Nat × AIVerification) := []
  reconciliations : List (Nat × ReconciliationPolicy) := []
  score_audit : List ScoreAuditEntry := []
  deriving DecidableEq, Repr

/-- `models.SessionState` (the client-facing snapshot built by `to_state`;
`code` and `theme` omitted as above). -/
structure SessionState where
  status : Status
  currentQuestionIndex : Nat
  players : List Player
  questions : List Question
  roundSize : Nat
  settings : GameSettings
  timerRemaining : Option Int
  deriving DecidableEq, Repr

/-- `models.PlayerResult`.  `totalTime` keeps the exact rational sum; the
source rounds it to 2 decimals for display only (no claim depends on it). -/
structure PlayerResult where
  id : String
  nickname : String
  score : Int
  rank : Nat
  totalTime : ℚ
  deriving DecidableEq, Repr

/-- `models.QuestionResult`. -/
structure QuestionResult where
  question : String
  options : List String
  correct : Int
  explanation : Option String
  points : Int
  yourAnswer : Option Int := none
  answeredCorrectly : Option Bool := none
  challengeStatus : Option String := none
  resolutionVerdict : Option String := none
  resolutionNote : Option String := none
  aiVerdict : Option String := none
  aiConfidence : Option ℚ := none
  aiRationale : Option String := none
  aiSuggestedCorrection : Option String := none
  scoringPolicy : Option String := none
  acceptedAnswers : Option (List Int) := none
  deriving DecidableEq, Repr

/-- `models.RevealResults`. -/
structure RevealResults where
  players : List PlayerResult
  questions : List QuestionResult
  deriving DecidableEq, Repr

/-- `models.LiveLeaderboardEntry`. -/
structure LiveLeaderboardEntry where
  id : String
  nickname : String
  score : Int
  rank : Nat
  correctAnswers : Nat
  totalAnswers : Nat
  deriving DecidableEq, Repr

/-- `models.AnswerStatus`. -/
structure AnswerStatus where
  answered : List String
  waiting : List String
  deriving DecidableEq, Repr

/-! ### Python-dict primitives -/

/-- `d.get(k)` for a `Nat`-keyed dict. -/
def dget : List (Nat × α) → Nat → Option α
  | [], _ => none
  | (k, v) :: rest, key => if k = key then some v else dget rest key

/-- `d[k] = v` for a `Nat`-keyed dict: replace in place, else append. -/
def dset : List (Nat × α) → Nat → α → List (Nat × α)
  | [], k, v => [(k, v)]
  | (k', v') :: rest, k, v =>
    if k' = k then (k, v) :: rest else (k', v') :: dset rest k v

/-- `d.get(k)` for a `String`-keyed dict. -/
def sget : List (String × α) → String → Option α
  | [], _ => none
  | (k, v) :: rest, key => if k = key then some v else sget rest key

/-- `d[k] = v` for a `String`-keyed dict. -/
def sset : List (String × α) → String → α → List (String × α)
  | [], k, v => [(k, v)]
  | (k', v') :: rest, k, v =>
    if k' = k then (k, v) :: rest else (k', v') :: sset rest k v

/-! ### models.py: Session methods -/

/-- The question scrubber inside `Session.to_state`: correct index replaced
by `-1`, explanation dropped, text/options/points kept. -/
def hideQuestion (q : Question) : Question :=
  { question := q.question, options := q.options, correct := -1,
    explanation := none, points := q.points }

/-- `Session.to_state`. -/
def to_state (s : Session) (include_answers : Bool := false) : SessionState :=
  let questions_for_client :=
    if s.status = .playing ∧ include_answers = false then
      s.questions.map hideQuestion
    else
      s.questions
  { status := s.status,
    currentQuestionIndex := s.current_question_index,
    players := s.players,
    questions := questions_for_client,
    roundSize := s.round_size,
    settings := { timerMode := s.timer_mode, timerSeconds := s.timer_seconds,
                  autoProgressMode := s.auto_progress_mode,
                  autoProgressPercent := s.auto_progress_percent },
    timerRemaining := s.timer_remaining }

/-- One iteration of the outer question loop of `Session.calculate_scores`.
The source initialises `accepted = None` and runs a single inner loop;
the unrecognised-policy case therefore shares the exact-match rule with
the no-policy case, which is spelled out branch by branch here. -/
def scoreStep (recs : List (Nat × ReconciliationPolicy))
    (ps : List Player) (iq : Nat × Question) : List Player :=
  let qIdx := iq.1
  let question := iq.2
  let exactMatch : List Player := ps.map (fun p =>
    match dget p.answers qIdx with
    | some choice =>
      if choice = question.correct then { p with score := p.score + question.points } else p
    | none => p)
  match dget recs qIdx with
  | some policy =>
    if policy.policy = "void" then ps
    else if policy.policy = "award_all" then
      ps.map (fun p => { p with score := p.score + question.points })
    else if policy.policy = "accept_multiple" then
      let accepted := question.correct :: policy.acceptedAnswers.getD []
      ps.map (fun p =>
        match dget p.answers qIdx with
        | some choice =>
          if choice ∈ accepted then { p with score := p.score + question.points } else p
        | none => p)
    else exactMatch
  | none => exactMatch

/-- `Session.calculate_scores`: reset every score to 0, then fold the
per-question rule over the questions in index order. -/
def calculate_scores (s : Session) : Session :=
  let ps0 := s.players.map (fun p => { p with score := 0 })
  { s with players := (s.questions.enum).foldl (scoreStep s.reconciliations) ps0 }

/-- `get_total_time` inside `get_reveal_results`: `sum(answer_times.values())`. -/
def get_total_time (p : Player) : ℚ := (p.answer_times.map (·.2)).sum

/-! Stable insertion sort modelling Python's stable `sorted(key=...)`:
`lt` is the strict part of the key order; equal-key elements keep their
original relative order. -/

def insort (lt : α → α → Bool) (x : α) : List α → List α
  | [] => [x]
  | y :: ys => if lt y x then y :: insort lt x ys else x :: y :: ys

def ssort (lt : α → α → Bool) : List α → List α
  | [] => []
  | x :: xs => insort lt x (ssort lt xs)

/-- Strict part of the reveal sort key `(-p.score, get_total_time p)`. -/
def playerLt (a b : Player) : Bool :=
  decide (b.score < a.score) ||
    (decide (a.score = b.score) && decide (get_total_time a < get_total_time b))

/-- The `requesting_player` lookup of `Session.get_reveal_results`
(`self.players.get(player_id) if player_id else None`, after
`calculate_scores` has updated the players in place). -/
def revealRequestingPlayer (s : Session) (player_id : Option String) : Option Player :=
  match player_id with
  | some pid => (calculate_scores s).players.find? (fun p => p.id == pid)
  | none => none

/-- The per-question loop body of `Session.get_reveal_results`, building
one `QuestionResult` for the question at index `iq.1`. -/
def revealQuestionResult (s' : Session) (requesting_player : Option Player)
    (iq : Nat × Question) : QuestionResult :=
  let i := iq.1
  let q := iq.2
  let ya : Option Int × Option Bool :=
    match requesting_player with
    | some rp =>
      match dget rp.answers i with
      | some a => (some a, some (decide (a = q.correct)))
      | none => (none, none)
    | none => (none, none)
  let resolution := dget s'.challenge_resolutions i
  let ai_verification := dget s'.ai_verifications i
  let reconciliation := dget s'.reconciliations i
  let include_resolution : Option ChallengeResolution :=
    match resolution with
    | some r => if r.published then some r else none
    | none => none
  let include_ai : Option AIVerification :=
    match ai_verification with
    | some v => if v.published then some v else none
    | none => none
  { question := q.question, options := q.options, correct := q.correct,
    explanation := q.explanation, points := q.points,
    yourAnswer := ya.1, answeredCorrectly := ya.2,
    challengeStatus := include_resolution.map (·.status),
    resolutionVerdict := include_resolution.bind (·.verdict),
    resolutionNote := include_resolution.bind (·.resolutionNote),
    aiVerdict := include_ai.map (·.verdict),
    aiConfidence := include_ai.map (·.confidence),
    aiRationale := include_ai.map (·.rationale),
    aiSuggestedCorrection := include_ai.bind (·.suggested_correction),
    scoringPolicy := reconciliation.map (·.policy),
    acceptedAnswers := reconciliation.bind (·.acceptedAnswers) }

/-- `Session.get_reveal_results`.  The source's rank loop assigns
`current_rank = i + 1` in both arms of its tie conditional, i.e. rank is
always the 1-based sorted position. -/
def get_reveal_results (s : Session) (player_id : Option String) : RevealResults :=
  let s' := calculate_scores s
  let sorted_players := ssort playerLt s'.players
  let player_results : List PlayerResult := sorted_players.enum.map (fun ip =>
    { id := ip.2.id, nickname := ip.2.nickname, score := ip.2.score,
      rank := ip.1 + 1, totalTime := get_total_time ip.2 })
  let question_results : List QuestionResult :=
    s'.questions.enum.map (revealQuestionResult s' (revealRequestingPlayer s player_id))
  { players := player_results, questions := question_results }

/-- Intermediate dict entry of `get_live_leaderboard`. -/
structure LBEntry where
  id : String
  nickname : String
  score : Int
  correctAnswers : Nat
  totalAnswers : Nat
  totalTime : ℚ
  deriving DecidableEq, Repr

/-- Entry initialisation loop of `get_live_leaderboard`. -/
def lbInit (p : Player) : LBEntry :=
  { id := p.id, nickname := p.nickname, score := 0, correctAnswers := 0,
    totalAnswers := p.answers.length, totalTime := get_total_time p }

/-- `entries[player.id]['score'] += points; entries[player.id]['correctAnswers'] += 1`. -/
def lbBump (entries : List LBEntry) (pid : String) (points : Int) : List LBEntry :=
  entries.map (fun e =>
    if e.id = pid then
      { e with score := e.score + points, correctAnswers := e.correctAnswers + 1 }
    else e)

/-- One iteration of the question loop of `get_live_leaderboard`
(same branch layout as `scoreStep`, see its docstring). -/
def lbStep (recs : List (Nat × ReconciliationPolicy)) (players : List Player)
    (entries : List LBEntry) (iq : Nat × Question) : List LBEntry :=
  let qIdx := iq.1
  let question := iq.2
  let exactMatch : List LBEntry := players.foldl (fun es p =>
    match dget p.answers qIdx with
    | some choice => if choice = question.correct then lbBump es p.id question.points else es
    | none => es) entries
  match dget recs qIdx with
  | some policy =>
    if policy.policy = "void" then entries
    else if policy.policy = "award_all" then
      entries.map (fun e =>
        { e with score := e.score + question.points, correctAnswers := e.correctAnswers + 1 })
    else if policy.policy = "accept_multiple" then
      let accepted := question.correct :: policy.acceptedAnswers.getD []
      players.foldl (fun es p =>
        match dget p.answers qIdx with
        | some choice => if choice ∈ accepted then lbBump es p.id question.points else es
        | none => es) entries
    else exactMatch
  | none => exactMatch

/-- Strict part of the leaderboard sort key `(-e.score, e.totalTime)`. -/
def lbLt (a b : LBEntry) : Bool :=
  decide (b.score < a.score) ||
    (decide (a.score = b.score) && decide (a.totalTime < b.totalTime))

/-- `Session.get_live_leaderboard`. -/
def get_live_leaderboard (s : Session) : List LiveLeaderboardEntry :=
  let entries0 := s.players.map lbInit
  let entries := (s.questions.enum).foldl (lbStep s.reconciliations s.players) entries0
  let sorted := ssort lbLt entries
  sorted.enum.map (fun ie =>
    { id := ie.2.id, nickname := ie.2.nickname, score := ie.2.score,
      rank := ie.1 + 1, correctAnswers := ie.2.correctAnswers,
      totalAnswers := ie.2.totalAnswers })

/-- `Session.get_answer_status` (one pass in the source; filters here). -/
def get_answer_status (s : Session) (question_index : Nat) : AnswerStatus :=
  { answered := (s.players.filter (fun p => (dget p.answers question_index).isSome)).map (·.id),
    waiting := (s.players.filter (fun p => (dget p.answers question_index).isNone)).map (·.id) }

/-! Proof-side normal forms for the two scoring computations.  `contribHit`
is the shared per-question awarding condition both loops implement;
`bumpE` is the entry update `lbBump` applies to the matching entry. -/

/-- Does player `p` get question `iq`'s points under the active policies?
(void: never; award_all: always; accept_multiple: answered with a choice
in the accepted set, the original correct index implicitly included;
otherwise: answered with exactly the correct index.) -/
def contribHit (recs : List (Nat × ReconciliationPolicy)) (iq : Nat × Question)
    (p : Player) : Bool :=
  match dget recs iq.1 with
  | some policy =>
    if policy.policy = "void" then false
    else if policy.policy = "award_all" then true
    else if policy.policy = "accept_multiple" then
      match dget p.answers iq.1 with
      | some choice => decide (choice ∈ iq.2.correct :: policy.acceptedAnswers.getD [])
      | none => false
    else
      match dget p.answers iq.1 with
      | some choice => decide (choice = iq.2.correct)
      | none => false
  | none =>
    match dget p.answers iq.1 with
    | some choice => decide (choice = iq.2.correct)
    | none => false

/-- The entry update applied by `lbBump` to the matching entry. -/
def bumpE (e : LBEntry) (pts : Int) : LBEntry :=
  { e with score := e.score + pts, correctAnswers := e.correctAnswers + 1 }

/-- Per-player normal form of one `scoreStep` iteration. -/
def pStep (recs : List (Nat × ReconciliationPolicy)) (p : Player)
    (iq : Nat × Question) : Player :=
  if contribHit recs iq p then { p with score := p.score + iq.2.points } else p

/-- Per-entry normal form of one `lbStep` iteration, for the entry of
player `p`. -/
def eStep (recs : List (Nat × ReconciliationPolicy)) (p : Player) (e : LBEntry)
    (iq : Nat × Question) : LBEntry :=
  if contribHit recs iq p then bumpE e iq.2.points else e

/-! ### main.py: Event Log (polling fallback) -/

def MAX_EVENTS_PER_SESSION : Nat := 100

/-- `main.add_session_event`.  An event is modelled as
`(append ordinal, _eventId)`; the payload, visibility flags and
`_timestamp` carry no information the event-log claims read.  The id is
assigned from the list length *before* the append, and the list is then
trimmed to the last `MAX_EVENTS_PER_SESSION` entries (`lst[-100:]`). -/
def add_session_event (log : List (Nat × Nat)) (ordinal : Nat) : List (Nat × Nat) :=
  let log' := log ++ [(ordinal, log.length)]
  if MAX_EVENTS_PER_SESSION < log'.length then
    log'.drop (log'.length - MAX_EVENTS_PER_SESSION)
  else log'

/-- The event log of a session after `n` broadcasts (ordinals `0..n-1`). -/
def eventLogAfter (n : Nat) : List (Nat × Nat) :=
  (List.range n).foldl add_session_event []

/-- The core query of `main.get_session_events`: all retained events with
`_eventId > since_id`, in log order.  (Role-based `_hostOnly` filtering and
reveal personalisation apply downstream of this filter and do not affect
the id/ordering claims.) -/
def get_session_events (log : List (Nat × Nat)) (since_id : Nat) : List (Nat × Nat) :=
  log.filter (fun e => since_id < e.2)

/-- `lastEventId` as reported by `main.get_session_events`:
`events[-1]['_eventId'] if events else 0`. -/
def lastEventId (log : List (Nat × Nat)) : Nat :=
  match log.getLast? with
  | some e => e.2
  | none => 0

/-! ### main.py: HTTP handlers as state transformers -/

/-- Caller-visible failures (§7 taxonomy).  Each constructor names the
condition of one `raise HTTPException` site; `alreadyAnswered` and
`duplicateNickname` are the spec's `Conflict` cases, `wrongQuestion` its
`StaleQuestion`. -/
inductive Err where
  | notFound
  | invalidPhase
  | wrongQuestion
  | alreadyAnswered
  | duplicateNickname
  | noQuestions
  | noMoreQuestions
  | validation
  deriving DecidableEq, Repr

/-- `main.join_session` (the fresh `generate_player_id` is passed in). -/
def join_session (s : Session) (nickname newId : String) : Except Err Session :=
  if s.status ≠ .lobby then .error .invalidPhase
  else if s.players.any (fun p => p.nickname.toLower == nickname.toLower) then
    .error .duplicateNickname
  else
    .ok { s with players := s.players ++ [{ id := newId, nickname := nickname }] }

/-- `main.upload_questions`. -/
def upload_questions (s : Session) (qs : List Question) : Except Err Session :=
  if s.status ≠ .lobby then .error .invalidPhase
  else .ok { s with questions := qs }

/-- `main.append_questions`. -/
def append_questions (s : Session) (qs : List Question) : Except Err Session :=
  if s.status ≠ .lobby ∧ s.status ≠ .playing then .error .invalidPhase
  else if qs.isEmpty then .error .validation
  else .ok { s with questions := s.questions ++ qs }

/-- `main.start_round`.  NOTE: the source has no phase check here — only
"no questions loaded"; a playing or revealed session can be (re)started. -/
def start_round (s : Session) (now : ℚ) : Except Err Session :=
  if s.questions.length = 0 then .error .noQuestions
  else
    .ok { s with status := .playing, current_question_index := 0,
                 question_start_times := dset s.question_start_times 0 now }

/-- `main.next_question`.  The Python bound check
`current >= len(questions) - 1` agrees with the truncated `Nat`
subtraction used here in every reachable case (for `len = 0` both sides
always fail/advance identically, since `current ≥ 0 > -1` and `0 - 1 = 0`). -/
def next_question (s : Session) (now : ℚ) : Except Err Session :=
  if s.status ≠ .playing then .error .invalidPhase
  else if s.questions.length - 1 ≤ s.current_question_index then .error .noMoreQuestions
  else
    .ok { s with current_question_index := s.current_question_index + 1,
                 question_start_times :=
                   dset s.question_start_times (s.current_question_index + 1) now }

/-- `main.reveal_results`.  No phase check in the source: any session can
be revealed; scores are recomputed from scratch. -/
def reveal_results (s : Session) : Except Err Session :=
  .ok (calculate_scores { s with status := .revealed })

/-- `main.auto_advance_question` — the shared advance-or-reveal transition,
also exactly the body of the timer-expiry branch of
`main.run_question_timer` (last question ⇒ reveal + recompute, otherwise
⇒ increment index and stamp the start time). -/
def auto_advance_question (s : Session) (now : ℚ) : Session :=
  if s.questions.length - 1 ≤ s.current_question_index then
    calculate_scores { s with status := .revealed }
  else
    { s with current_question_index := s.current_question_index + 1,
             question_start_times :=
               dset s.question_start_times (s.current_question_index + 1) now }

/-- The state transition of `main.run_question_timer` on expiry: guarded on
the session still playing the same question, then the shared
advance-or-reveal logic.  The tick loop, grace-second re-check and task
bookkeeping only touch `timer_remaining`, which is set to 0 before the
transition. -/
def run_question_timer_expiry (s : Session) (question_index : Nat) (now : ℚ) : Session :=
  if s.status = .playing ∧ s.current_question_index = question_index then
    auto_advance_question { s with timer_remaining := some 0 } now
  else s

/-- `main.submit_answer`: the guards in source order, then the answer and
elapsed-time recording, then the auto-progress quorum check.  The quorum
comparison `(answered / total) * 100 >= percent` is evaluated in exact
rational arithmetic. -/
def submit_answer (s : Session) (playerId : String) (questionIndex : Nat)
    (choice : Int) (response_time_ms : Option Int) (now : ℚ) : Except Err Session :=
  match s.players.find? (fun p => p.id == playerId) with
  | none => .error .notFound
  | some player =>
    if s.status ≠ .playing then .error .invalidPhase
    else if questionIndex ≠ s.current_question_index then .error .wrongQuestion
    else if (dget player.answers questionIndex).isSome then .error .alreadyAnswered
    else
      let serverElapsed : ℚ := now - ((dget s.question_start_times questionIndex).getD now)
      let elapsed : ℚ :=
        match response_time_ms with
        | some ms => if 0 ≤ ms then (ms : ℚ) / 1000 else serverElapsed
        | none => serverElapsed
      let s1 : Session := { s with players := s.players.map (fun p =>
        if p.id = playerId then
          { p with answers := dset p.answers questionIndex choice,
                   answer_times := dset p.answer_times questionIndex elapsed }
        else p) }
      let s2 : Session :=
        if s1.auto_progress_mode ∧ 0 < s1.players.length then
          let answeredCount := (get_answer_status s1 questionIndex).answered.length
          if (s1.auto_progress_percent : ℚ) ≤
              (answeredCount : ℚ) / (s1.players.length : ℚ) * 100 then
            auto_advance_question s1 now
          else s1
        else s1
      .ok s2

/-- `main.submit_challenge`. -/
def submit_challenge (s : Session) (playerId : String) (questionIndex : Nat)
    (category note : Option String) (src : String) (now : ℚ) : Except Err Session :=
  match s.players.find? (fun p => p.id == playerId) with
  | none => .error .notFound
  | some player =>
    if s.questions.length ≤ questionIndex then .error .validation
    else
      let submission : ChallengeSubmission :=
        { playerId := playerId, nickname := player.nickname,
          questionIndex := questionIndex, category := category, note := note,
          source := src, createdAt := now }
      let inner := (dget s.challenges questionIndex).getD []
      let chs := dset s.challenges questionIndex (sset inner playerId submission)
      .ok { s with challenges := chs }

/-- `main.resolve_challenge`. -/
def resolve_challenge (s : Session) (question_index : Nat)
    (stat : String) (verdict resolutionNote : Option String) (publish : Bool)
    (now : ℚ) : Except Err Session :=
  if s.questions.length ≤ question_index then .error .notFound
  else
    let resolution : ChallengeResolution :=
      { status := stat, verdict := verdict, resolutionNote := resolutionNote,
        resolvedAt := some now, resolvedBy := some "host", published := publish }
    let crs := dset s.challenge_resolutions question_index resolution
    .ok { s with challenge_resolutions := crs }

/-- `main.publish_ai_verification`. -/
def publish_ai_verification (s : Session) (question_index : Nat) (publish : Bool)
    (now : ℚ) : Except Err Session :=
  match dget s.ai_verifications question_index with
  | none => .error .validation
  | some v =>
    let v' : AIVerification :=
      { v with published := publish,
               publishedAt := if publish then some now else none }
    let avs := dset s.ai_verifications question_index v'
    .ok { s with ai_verifications := avs }

/-- `main.reconcile_scores`: validate, install the policy (last write
wins), recompute all scores, record one audit entry with per-player
deltas.  `acceptedAnswers or None` maps an empty list to `none`. -/
def reconcile_scores (s : Session) (question_index : Nat) (policyStr : String)
    (acceptedAnswers : Option (List Int)) (now : ℚ) : Except Err Session :=
  if s.questions.length ≤ question_index then .error .notFound
  else if ¬(policyStr = "void" ∨ policyStr = "award_all" ∨ policyStr = "accept_multiple") then
    .error .validation
  else
    let accepted : Option (List Int) :=
      match acceptedAnswers with
      | some l => if l.isEmpty then none else some l
      | none => none
    let policy : ReconciliationPolicy :=
      { policy := policyStr, acceptedAnswers := accepted, appliedAt := now,
        appliedBy := "host" }
    let prev_scores : List (String × Int) := s.players.map (fun p => (p.id, p.score))
    let s1 := calculate_scores
      { s with reconciliations := dset s.reconciliations question_index policy }
    let deltas : List (String × Int) :=
      s1.players.map (fun p => (p.id, p.score - ((sget prev_scores p.id).getD 0)))
    .ok { s1 with score_audit := s1.score_audit ++
            [{ questionIndex := question_index, policy := policyStr,
               appliedAt := now, deltas := deltas }] }

/-! ### The exposed operations as a single step relation -/

/-- One caller-facing operation of the core (spec §6), with the fresh ids
and timestamps the transport layer supplies passed as data. -/
inductive Op where
  | join (nickname newId : String)
  | upload (qs : List Question)
  | appendQs (qs : List Question)
  | start (now : ℚ)
  | next (now : ℚ)
  | reveal
  | answer (playerId : String) (questionIndex : Nat) (choice : Int)
      (response_time_ms : Option Int) (now : ℚ)
  | timerExpiry (questionIndex : Nat) (now : ℚ)
  | challenge (playerId : String) (questionIndex : Nat)
      (category note : Option String) (src : String) (now : ℚ)
  | resolve (questionIndex : Nat) (stat : String) (verdict note : Option String)
      (publish : Bool) (now : ℚ)
  | aiPublish (questionIndex : Nat) (publish : Bool) (now : ℚ)
  | reconcile (questionIndex : Nat) (policy : String)
      (acceptedAnswers : Option (List Int)) (now : ℚ)
  deriving DecidableEq, Repr

/-- Dispatch an operation to its handler. -/
def stepOp : Op → Session → Except Err Session
  | .join nickname newId, s => join_session s nickname newId
  | .upload qs, s => upload_questions s qs
  | .appendQs qs, s => append_questions s qs
  | .start now, s => start_round s now
  | .next now, s => next_question s now
  | .reveal, s => reveal_results s
  | .answer pid qi c ms now, s => submit_answer s pid qi c ms now
  | .timerExpiry qi now, s => .ok (run_question_timer_expiry s qi now)
  | .challenge pid qi cat note src now, s => submit_challenge s pid qi cat note src now
  | .resolve qi stat verdict note publish now, s =>
      resolve_challenge s qi stat verdict note publish now
  | .aiPublish qi publish now, s => publish_ai_verification s qi publish now
  | .reconcile qi pol acc now, s => reconcile_scores s qi pol acc now

/-- The state after an operation: a failed (raising) handler leaves the
session unchanged, a successful one installs the new state. -/
def applyOp (op : Op) (s : Session) : Session :=
  match stepOp op s with
  | .ok s' => s'
  | .error _ => s

/-- The state after a sequence of operations. -/
def applyOps (s : Session) (ops : List Op) : Session :=
  ops.foldl (fun s op => applyOp op s) s

/-- Concrete witness for C10: a playing session hides the key, a lobby
session does not. -/
def c10PlayingSession : Session :=
  { status := .playing,
    questions := [{ question := "2+2?", options := ["3", "4", "5", "22"], correct := 1,
                    explanation := some "four", points := 1 }] }

def c10LobbySession : Session :=
  { status := .lobby,
    questions := [{ question := "2+2?", options := ["3", "4", "5", "22"], correct := 1 }] }

/-- Concrete witness for C3: Ann answered question 0 with choice 1 in
2 seconds; her second submission is rejected with the duplicate-answer
conflict and the session (hence her recorded choice and time) is
unchanged. -/
def c3Player : Player :=
  { id := "p1", nickname := "Ann", answers := [(0, 1)], answer_times := [(0, 2)] }

def c3Session : Session :=
  { status := .playing, current_question_index := 0,
    players := [c3Player],
    questions := [{ question := "2+2?", options := ["3", "4", "5", "22"], correct := 1 }] }

/-! ### Claim C1 — phase transitions -/

/-- lobby → playing → revealed, numerically. -/
def phaseRank : Status → Nat
  | .lobby => 0
  | .playing => 1
  | .revealed => 2

/-- `start` is the one operation without a phase guard; a trace satisfies
this check when every `start` in it fires from the lobby. -/
def startGuard (s : Session) : Op → Bool
  | .start _ => s.status == .lobby
  | _ => true

def okTrace : Session → List Op → Bool
  | _, [] => true
  | s, op :: ops => startGuard s op && okTrace (applyOp op s) ops

def c1Session : Session :=
  { questions := [{ question := "q0", options := ["a", "b"], correct := 0 },
                  { question := "q1", options := ["a", "b"], correct := 1 }] }

def c1WitnessSession : Session :=
  { questions := [{ question := "q0", options := ["a", "b"], correct := 0 }],
    players := [{ id := "p1", nickname := "Ann" }] }

def c5Session : Session :=
  { status := .playing, current_question_index := 0,
    players := [{ id := "p1", nickname := "Ann", answers := [(0, 1)],
                  answer_times := [(0, 1)] }],
    questions := [{ question := "2+2?", options := ["3", "4", "5", "22"], correct := 1 }] }

/-- The normalisation `request.acceptedAnswers or None` applied by
`reconcile_scores`. -/
def normAccepted (acc : Option (List Int)) : Option (List Int) :=
  match acc with
  | some l => if l.isEmpty then none else some l
  | none => none

/-- The policy record `reconcile_scores` builds from a request. -/
def mkReconPolicy (pol : String) (acc : Option (List Int)) (now : ℚ) :
    ReconciliationPolicy :=
  { policy := pol, acceptedAnswers := normAccepted acc, appliedAt := now,
    appliedBy := "host" }

/-- The session with the requested policy installed (the state on which
`reconcile_scores` recomputes the scores). -/
def withPolicy (s : Session) (qi : Nat) (pol : String) (acc : Option (List Int))
    (now : ℚ) : Session :=
  { s with reconciliations := dset s.reconciliations qi (mkReconPolicy pol acc now) }

def c5LobbySession : Session :=
  { status := .lobby,
    players := [{ id := "p1", nickname := "Ann" }],
    questions := [{ question := "2+2?", options := ["3", "4", "5", "22"], correct := 1 }] }

def c6Resolution : ChallengeResolution :=
  { status := "resolved", verdict := some "invalid", resolutionNote := some "bad key",
    resolvedAt := some 3, resolvedBy := some "host", published := false }

def c6Session : Session :=
  { status := .revealed,
    players := [{ id := "a1", nickname := "Ann", answers := [(0, 1)],
                  answer_times := [(0, 1)] }],
    questions := [{ question := "q", options := ["x", "y"], correct := 1 }],
    challenge_resolutions := [(0, c6Resolution)] }

/-- Witness for C6: in a concrete revealed session with an *unpublished*
resolution on question 0, Ann's personalized reveal record for question 0
carries her own answer but no resolution data; after the host re-resolves
with publish=true, the same record shows the resolution. -/
def c6PubSession : Session :=
  applyOp (.resolve 0 "resolved" (some "invalid") (some "bad key") true 4) c6Session

/-- The leaderboard entry of player `p` in per-player normal form. -/
def lbEntryOf (s : Session) (p : Player) : LBEntry :=
  (s.questions.enum).foldl (eStep s.reconciliations p) (lbInit p)

/-- The recomputed player record of `p` in per-player normal form. -/
def calcPlayerOf (s : Session) (p : Player) : Player :=
  (s.questions.enum).foldl (pStep s.reconciliations) { p with score := 0 }

def c2Session : Session :=
  { status := .playing, current_question_index := 1,
    players := [{ id := "a1", nickname := "Ann", answers := [(0, 1), (1, 0)],
                  answer_times := [(0, 2), (1, 3)] },
                { id := "b1", nickname := "Bo", answers := [(0, 2)],
                  answer_times := [(0, 5)] }],
    questions := [{ question := "q0", options := ["x", "y", "z"], correct := 1,
                    points := 2 },
                  { question := "q1", options := ["x", "y"], correct := 0 }],
    reconciliations := [(0, { policy := "accept_multiple",
                              acceptedAnswers := some [2], appliedAt := 1,
                              appliedBy := "host" })] }

def c8Question : Question :=
  { question := "2+2?", options := ["3", "4", "5", "22"], correct := 1, points := 1 }

/-- The scenario of C8: a lobby session Ann and Bo have joined, one
question (correct = 1, points = 1), timer disabled; then start, Ann
answers 1 (correct), Bo answers 3 (wrong), and reveal.  The session
starts from the post-join lobby state because `join_session`'s
case-insensitive nickname check (`String.toLower`) is not
kernel-evaluable. -/
def c8Scenario : Session :=
  applyOps
    { players := [{ id := "ann", nickname := "Ann" }, { id := "bo", nickname := "Bo" }] }
    [.upload [c8Question], .start 0, .answer "ann" 0 1 (some 1000) 1,
     .answer "bo" 0 3 (some 3000) 3, .reveal]

/-- The scenario of C9: a revealed session (scores already computed) in
which Ann answered question 0 correctly (score 1) and Bo did not
(score 0). -/
def c9Session : Session :=
  { status := .revealed,
    players := [{ id := "ann", nickname := "Ann", score := 1, answers := [(0, 1)],
                  answer_times := [(0, 1)] },
                { id := "bo", nickname := "Bo", score := 0, answers := [(0, 3)],
                  answer_times := [(0, 3)] }],
    questions := [{ question := "2+2?", options := ["3", "4", "5", "22"], correct := 1,
                    points := 1 }] }

/-! ### Claim C4 — event ids (code bug) -/

set_option maxRecDepth 100000 in
/-- C4: the claim says every append gets a sequence id strictly greater
than every id already in the log, with the log capped at the last 100
entries.  The cap holds and ids are dense `0..99` up to the cap, but
`add_session_event` assigns the id from the length of the *trimmed* list:
from the 102nd append onwards every event gets id 100, so the log then
holds two entries with id 100 — ids are no longer strictly increasing. -/
theorem c4_event_ids_stall_after_cap :
    eventLogAfter 100 = (List.range 100).map (fun i => (i, i)) ∧
    (eventLogAfter 102).length = 100 ∧
    ((eventLogAfter 102).map (·.2)).count 100 = 2 ∧
    ((eventLogAfter 102).map (·.2)).drop 98 = [100, 100] := by
  decide

/-! ### Claim C7 — two-call event reads (code bug) -/

set_option maxRecDepth 100000 in
/-- C7: a pull consumer that reads since id 99 right after the 101st
broadcast (receiving the event with id 100 and `lastEventId = 100`) and
then reads since id 100 after the 102nd broadcast misses the 102nd event
entirely, because that event was also assigned id 100; a single read since
id 99 after the 102nd broadcast returns both.  The log still retains
id 99, so it has not rotated past the earliest requested id — the claimed
split-read/one-read equivalence fails on the code. -/
theorem c7_split_read_loses_event :
    99 ∈ ((eventLogAfter 102).map (·.2)) ∧
    lastEventId (eventLogAfter 101) = 100 ∧
    get_session_events (eventLogAfter 101) 99 ++
        get_session_events (eventLogAfter 102) (lastEventId (eventLogAfter 101)) =
      [(100, 100)] ∧
    get_session_events (eventLogAfter 102) 99 = [(100, 100), (101, 100)] := by
  decide

/-! ### Claim C10 — answer hiding in `to_state` -/

/-- C10: while the session is `playing`, the client-facing state built
without the include-answers flag replaces every question's correct index
by `-1` and its explanation by `None`, keeping text, options and points
(`hideQuestion`); in any other phase the questions are returned intact. -/
theorem c10_to_state_hides_answers (s : Session) :
    (s.status = .playing → (to_state s false).questions = s.questions.map hideQuestion) ∧
    (s.status ≠ .playing → (to_state s false).questions = s.questions) := by
  constructor <;> intro h <;> simp [to_state, h]

theorem c10_to_state_hides_answers_witness :
    (to_state c10PlayingSession false).questions =
        c10PlayingSession.questions.map hideQuestion ∧
    (to_state c10LobbySession false).questions = c10LobbySession.questions := by
  exact ⟨(c10_to_state_hides_answers c10PlayingSession).1 rfl,
         (c10_to_state_hides_answers c10LobbySession).2 (by decide)⟩

/-! ### Claim C3 — duplicate answer submission -/

/-- C3: once a player has an answer recorded for index `i`, a second
`submit_answer` for `i` can never succeed and leaves the session exactly
as it was; when the session is still playing question `i` (the situation
of the spec's "submitting twice"), the failure is the duplicate-answer
`Conflict` (`Err.alreadyAnswered`).  The handler raises before any
mutation, so the first recorded choice and elapsed time are untouched. -/
theorem c3_duplicate_answer_rejected (s : Session) (pid : String) (i : Nat)
    (c : Int) (ms : Option Int) (now : ℚ) (p : Player)
    (hp : s.players.find? (fun q => q.id == pid) = some p)
    (ha : (dget p.answers i).isSome = true) :
    (s.status = .playing → s.current_question_index = i →
      submit_answer s pid i c ms now = .error .alreadyAnswered) ∧
    (∀ s', submit_answer s pid i c ms now ≠ .ok s') ∧
    applyOp (.answer pid i c ms now) s = s := by
  have herr : ∀ s', submit_answer s pid i c ms now ≠ .ok s' := by
    intro s' hok
    unfold submit_answer at hok
    rw [hp] at hok
    by_cases h1 : s.status = .playing
    · by_cases h2 : i = s.current_question_index
      · subst h2
        simp [h1, ha] at hok
      · simp [h1, h2] at hok
    · simp [h1] at hok
  refine ⟨?_, herr, ?_⟩
  · intro h1 h2
    subst h2
    unfold submit_answer
    rw [hp]
    simp [h1, ha]
  · cases hres : submit_answer s pid i c ms now with
    | ok s' => exact absurd hres (herr s')
    | error e => simp [applyOp, stepOp, hres]

theorem c3_duplicate_answer_rejected_witness :
    submit_answer c3Session "p1" 0 2 none 0 = .error .alreadyAnswered ∧
    applyOp (.answer "p1" 0 2 none 0) c3Session = c3Session := by
  have h := c3_duplicate_answer_rejected c3Session "p1" 0 2 none 0 c3Player
    (by decide) (by decide)
  exact ⟨h.1 rfl rfl, h.2.2⟩

/-- C1 counterexample: `start_round` has no phase check, so the exposed
operations *can* move `status` backwards and decrease the index.  From a
revealed session, `start` re-enters `playing` (revealed→playing is a
backward transition), and from a playing session at index 1, `start`
resets the index to 0 while the status stays `playing`. -/
theorem c1_counterexample :
    (applyOps c1Session [.start 0, .reveal]).status = .revealed ∧
    (applyOps c1Session [.start 0, .reveal, .start 1]).status = .playing ∧
    (applyOps c1Session [.start 0, .next 1]).status = .playing ∧
    (applyOps c1Session [.start 0, .next 1]).current_question_index = 1 ∧
    (applyOps c1Session [.start 0, .next 1, .start 2]).status = .playing ∧
    (applyOps c1Session [.start 0, .next 1, .start 2]).current_question_index = 0 := by
  decide

theorem calculate_scores_status (s : Session) :
    (calculate_scores s).status = s.status := rfl

theorem calculate_scores_index (s : Session) :
    (calculate_scores s).current_question_index = s.current_question_index := rfl

theorem phaseRank_le_two (st : Status) : phaseRank st ≤ 2 := by
  cases st <;> simp [phaseRank]

/-- The shared advance-or-reveal transition only moves forward: from a
playing state it either reveals or increments the index. -/
theorem auto_advance_forward (s : Session) (now : ℚ) (hs : s.status = .playing) :
    phaseRank s.status ≤ phaseRank (auto_advance_question s now).status ∧
    ((auto_advance_question s now).status = .playing →
      s.current_question_index ≤ (auto_advance_question s now).current_question_index) := by
  unfold auto_advance_question
  split
  · refine ⟨?_, ?_⟩
    · rw [hs, calculate_scores_status]
      simp [phaseRank]
    · intro hc
      rw [calculate_scores_status] at hc
      simp at hc
  · exact ⟨le_refl _, fun _ => Nat.le_succ _⟩

/-! Inversion lemmas: what each successful handler does to status and
index (a failed handler leaves the state unchanged via `applyOp`). -/

theorem applyOp_ok {op : Op} {s s' : Session} (h : stepOp op s = .ok s') :
    applyOp op s = s' := by
  simp [applyOp, h]

theorem applyOp_error {op : Op} {s : Session} {e : Err} (h : stepOp op s = .error e) :
    applyOp op s = s := by
  simp [applyOp, h]

theorem join_session_ok {s s' : Session} {n i : String}
    (h : join_session s n i = .ok s') :
    s'.status = s.status ∧ s'.current_question_index = s.current_question_index := by
  unfold join_session at h
  split at h
  · exact absurd h (by simp)
  · split at h
    · exact absurd h (by simp)
    · cases h
      exact ⟨rfl, rfl⟩

theorem upload_questions_ok {s s' : Session} {qs : List Question}
    (h : upload_questions s qs = .ok s') :
    s'.status = s.status ∧ s'.current_question_index = s.current_question_index := by
  unfold upload_questions at h
  split at h
  · exact absurd h (by simp)
  · cases h
    exact ⟨rfl, rfl⟩

theorem append_questions_ok {s s' : Session} {qs : List Question}
    (h : append_questions s qs = .ok s') :
    s'.status = s.status ∧ s'.current_question_index = s.current_question_index := by
  unfold append_questions at h
  split at h
  · exact absurd h (by simp)
  · split at h
    · exact absurd h (by simp)
    · cases h
      exact ⟨rfl, rfl⟩

theorem start_round_ok {s s' : Session} {now : ℚ}
    (h : start_round s now = .ok s') :
    s'.status = .playing ∧ s'.current_question_index = 0 := by
  unfold start_round at h
  split at h
  · exact absurd h (by simp)
  · cases h
    exact ⟨rfl, rfl⟩

theorem next_question_ok {s s' : Session} {now : ℚ}
    (h : next_question s now = .ok s') :
    s.status = .playing ∧ s'.status = .playing ∧
    s'.current_question_index = s.current_question_index + 1 := by
  unfold next_question at h
  split at h
  · exact absurd h (by simp)
  · split at h
    · exact absurd h (by simp)
    · rename_i h1 _
      rw [ne_eq, not_not] at h1
      cases h
      exact ⟨h1, h1, rfl⟩

theorem reveal_results_ok {s s' : Session}
    (h : reveal_results s = .ok s') : s'.status = .revealed := by
  unfold reveal_results at h
  cases h
  rfl

/-- Variant of `auto_advance_forward` stated through explicit status/index
equalities so it unifies against a large record term. -/
theorem auto_advance_forward_of_eq (t : Session) (now : ℚ) (st : Status) (idx : Nat)
    (hst : t.status = st) (hidx : t.current_question_index = idx)
    (hs : st = Status.playing) :
    phaseRank st ≤ phaseRank (auto_advance_question t now).status ∧
    ((auto_advance_question t now).status = .playing →
      idx ≤ (auto_advance_question t now).current_question_index) := by
  subst hst
  subst hidx
  exact auto_advance_forward t now hs

theorem submit_answer_ok {s s' : Session} {pid : String} {qi : Nat} {c : Int}
    {ms : Option Int} {now : ℚ}
    (h : submit_answer s pid qi c ms now = .ok s') :
    s.status = .playing ∧ phaseRank s.status ≤ phaseRank s'.status ∧
    (s'.status = .playing → s.current_question_index ≤ s'.current_question_index) := by
  unfold submit_answer at h
  cases hf : s.players.find? (fun p => p.id == pid) with
  | none =>
    rw [hf] at h
    exact absurd h (by simp)
  | some p =>
    rw [hf] at h
    dsimp only at h
    by_cases b1 : s.status = Status.playing
    · by_cases b2 : qi = s.current_question_index
      · subst b2
        by_cases b3 : (dget p.answers s.current_question_index).isSome = true
        · simp [b1, b3] at h
        · rw [if_neg (by simp [b1]), if_neg (by simp), if_neg b3] at h
          simp only [Except.ok.injEq] at h
          subst h
          refine ⟨b1, ?_, ?_⟩
          · split
            · split
              · refine (auto_advance_forward_of_eq _ now _ s.current_question_index ?_ ?_ ?_).1 <;>
                  first | rfl | exact b1
              · exact le_refl _
            · exact le_refl _
          · split
            · split
              · refine fun hp => (auto_advance_forward_of_eq _ now s.status _ ?_ ?_ ?_).2 hp <;>
                  first | rfl | exact b1
              · exact fun _ => le_refl _
            · exact fun _ => le_refl _
      · simp [b1, b2] at h
    · simp [b1] at h

theorem submit_challenge_ok {s s' : Session} {pid : String} {qi : Nat}
    {cat note : Option String} {src : String} {now : ℚ}
    (h : submit_challenge s pid qi cat note src now = .ok s') :
    s'.status = s.status ∧ s'.current_question_index = s.current_question_index := by
  unfold submit_challenge at h
  cases hf : s.players.find? (fun p => p.id == pid) with
  | none =>
    rw [hf] at h
    exact absurd h (by simp)
  | some p =>
    rw [hf] at h
    dsimp only at h
    by_cases hc : s.questions.length ≤ qi
    · simp [hc] at h
    · rw [if_neg hc] at h
      simp only [Except.ok.injEq] at h
      subst h
      exact ⟨rfl, rfl⟩

theorem resolve_challenge_ok {s s' : Session} {qi : Nat} {stat : String}
    {verdict note : Option String} {publish : Bool} {now : ℚ}
    (h : resolve_challenge s qi stat verdict note publish now = .ok s') :
    s'.status = s.status ∧ s'.current_question_index = s.current_question_index := by
  unfold resolve_challenge at h
  split at h
  · exact absurd h (by simp)
  · cases h
    exact ⟨rfl, rfl⟩

theorem publish_ai_verification_ok {s s' : Session} {qi : Nat} {publish : Bool}
    {now : ℚ} (h : publish_ai_verification s qi publish now = .ok s') :
    s'.status = s.status ∧ s'.current_question_index = s.current_question_index := by
  unfold publish_ai_verification at h
  cases hv : dget s.ai_verifications qi with
  | none =>
    rw [hv] at h
    exact absurd h (by simp)
  | some v =>
    rw [hv] at h
    simp only [Except.ok.injEq] at h
    subst h
    exact ⟨rfl, rfl⟩

theorem reconcile_scores_ok {s s' : Session} {qi : Nat} {pol : String}
    {acc : Option (List Int)} {now : ℚ}
    (h : reconcile_scores s qi pol acc now = .ok s') :
    s'.status = s.status ∧ s'.current_question_index = s.current_question_index := by
  unfold reconcile_scores at h
  split at h
  · exact absurd h (by simp)
  · split at h
    · exact absurd h (by simp)
    · cases h
      exact ⟨rfl, rfl⟩

theorem timer_expiry_forward (s : Session) (qi : Nat) (now : ℚ) :
    phaseRank s.status ≤ phaseRank (run_question_timer_expiry s qi now).status ∧
    (s.status = .playing → (run_question_timer_expiry s qi now).status = .playing →
      s.current_question_index ≤
        (run_question_timer_expiry s qi now).current_question_index) := by
  unfold run_question_timer_expiry
  split
  · rename_i hg
    have h2 := auto_advance_forward { s with timer_remaining := some 0 } now hg.1
    exact ⟨h2.1, fun _ hp => h2.2 hp⟩
  · exact ⟨le_refl _, fun _ _ => le_refl _⟩

/-- Single-step forward lemma: every exposed operation except an
out-of-lobby `start` keeps the phase rank non-decreasing and, between two
playing states, keeps the index non-decreasing. -/
theorem applyOp_forward (op : Op) (s : Session)
    (h : ∀ now, op = Op.start now → s.status = .lobby) :
    phaseRank s.status ≤ phaseRank (applyOp op s).status ∧
    (s.status = .playing → (applyOp op s).status = .playing →
      s.current_question_index ≤ (applyOp op s).current_question_index) := by
  cases hstep : stepOp op s with
  | error e =>
    rw [applyOp_error hstep]
    exact ⟨le_refl _, fun _ _ => le_refl _⟩
  | ok s' =>
    rw [applyOp_ok hstep]
    cases op with
    | join n i =>
      obtain ⟨h1, h2⟩ := join_session_ok hstep
      rw [h1, h2]
      exact ⟨le_refl _, fun _ _ => le_refl _⟩
    | upload qs =>
      obtain ⟨h1, h2⟩ := upload_questions_ok hstep
      rw [h1, h2]
      exact ⟨le_refl _, fun _ _ => le_refl _⟩
    | appendQs qs =>
      obtain ⟨h1, h2⟩ := append_questions_ok hstep
      rw [h1, h2]
      exact ⟨le_refl _, fun _ _ => le_refl _⟩
    | start now =>
      have hl := h now rfl
      obtain ⟨h1, h2⟩ := start_round_ok hstep
      constructor
      · rw [hl, h1]
        decide
      · intro hp _
        rw [hl] at hp
        exact absurd hp (by decide)
    | next now =>
      obtain ⟨h1, h2, h3⟩ := next_question_ok hstep
      constructor
      · rw [h1, h2]
      · intro _ _
        rw [h3]
        exact Nat.le_succ _
    | reveal =>
      have h1 := reveal_results_ok hstep
      constructor
      · rw [h1]
        exact phaseRank_le_two _
      · intro _ hp
        rw [h1] at hp
        exact absurd hp (by decide)
    | answer pid qi c ms now =>
      obtain ⟨h1, h2, h3⟩ := submit_answer_ok hstep
      exact ⟨h2, fun _ hp => h3 hp⟩
    | timerExpiry qi now =>
      have h' : Except.ok (ε := Err) (run_question_timer_expiry s qi now) = .ok s' := hstep
      cases h'
      exact ⟨(timer_expiry_forward s qi now).1,
             fun hp hq => (timer_expiry_forward s qi now).2 hp hq⟩
    | challenge pid qi cat note src now =>
      obtain ⟨h1, h2⟩ := submit_challenge_ok hstep
      rw [h1, h2]
      exact ⟨le_refl _, fun _ _ => le_refl _⟩
    | resolve qi stat verdict note publish now =>
      obtain ⟨h1, h2⟩ := resolve_challenge_ok hstep
      rw [h1, h2]
      exact ⟨le_refl _, fun _ _ => le_refl _⟩
    | aiPublish qi publish now =>
      obtain ⟨h1, h2⟩ := publish_ai_verification_ok hstep
      rw [h1, h2]
      exact ⟨le_refl _, fun _ _ => le_refl _⟩
    | reconcile qi pol acc now =>
      obtain ⟨h1, h2⟩ := reconcile_scores_ok hstep
      rw [h1, h2]
      exact ⟨le_refl _, fun _ _ => le_refl _⟩

/-- C1 (amended): over every sequence of exposed operations in which
`start` is only invoked from the lobby, the status rank is non-decreasing
(lobby→playing→revealed, never backward) and, between any two playing
states, `current_question_index` is non-decreasing.  The amendment is
forced by `c1_counterexample`: the unguarded `start` can move
revealed→playing and reset the index. -/
theorem c1_forward_without_restart (s : Session) (ops : List Op)
    (h : okTrace s ops = true) :
    phaseRank s.status ≤ phaseRank (applyOps s ops).status ∧
    (s.status = .playing → (applyOps s ops).status = .playing →
      s.current_question_index ≤ (applyOps s ops).current_question_index) := by
  induction ops generalizing s with
  | nil => exact ⟨le_refl _, fun _ _ => le_refl _⟩
  | cons op ops ih =>
    simp only [okTrace, Bool.and_eq_true] at h
    obtain ⟨hg, ht⟩ := h
    have hstep := applyOp_forward op s (by
      intro now he
      subst he
      simpa [startGuard] using hg)
    have hrest := ih (applyOp op s) ht
    have happ : applyOps s (op :: ops) = applyOps (applyOp op s) ops := rfl
    rw [happ]
    refine ⟨le_trans hstep.1 hrest.1, ?_⟩
    intro h0 hf
    have hmid : (applyOp op s).status = .playing := by
      have h1 : 1 ≤ phaseRank (applyOp op s).status := by
        have := hstep.1
        rw [h0] at this
        exact this
      have h2 : phaseRank (applyOp op s).status ≤ 1 := by
        have := hrest.1
        rw [hf] at this
        exact this
      cases hm : (applyOp op s).status
      · rw [hm] at h1; simp [phaseRank] at h1
      · rfl
      · rw [hm] at h2; simp [phaseRank] at h2
    exact le_trans (hstep.2 h0 hmid) (hrest.2 hmid hf)

/-- Witness for C1: a concrete lobby session run through
start → answer → reveal satisfies the trace guard, and the invariant
instantiates there. -/
theorem c1_forward_without_restart_witness :
    okTrace c1WitnessSession [.start 0, .answer "p1" 0 0 (some 1000) 1, .reveal] = true ∧
    phaseRank c1WitnessSession.status ≤
      phaseRank (applyOps c1WitnessSession
        [.start 0, .answer "p1" 0 0 (some 1000) 1, .reveal]).status := by
  exact ⟨by decide, (c1_forward_without_restart c1WitnessSession
    [.start 0, .answer "p1" 0 0 (some 1000) 1, .reveal] (by decide)).1⟩

/-! ### Claim C5 — reconciliation phase guard -/

theorem dget_dset (l : List (Nat × α)) (k : Nat) (v : α) :
    dget (dset l k v) k = some v := by
  induction l with
  | nil => simp [dset, dget]
  | cons kv rest ih =>
    by_cases h : kv.1 = k
    · simp [dset, h, dget]
    · simp [dset, h, dget, ih]

/-- C5 counterexample: `reconcile_scores` has no phase check, so a
reconcile call on a *playing* session does not fail with `InvalidPhase`:
it succeeds and changes the state (policy installed, scores recomputed,
audit entry appended). -/
theorem c5_counterexample :
    c5Session.status = .playing ∧
    (∃ s', reconcile_scores c5Session 0 "void" none 5 = .ok s') ∧
    applyOp (.reconcile 0 "void" none 5) c5Session ≠ c5Session := by
  refine ⟨rfl, ⟨_, rfl⟩, by decide⟩

/-- C5 (amended): reconciliation carries no phase restriction — in *any*
session status, a reconcile call with a valid question index and policy
succeeds, installs the policy for that question (last-write-wins
replacement of any prior policy for the same question), and recomputes
every player's score from scratch under the updated policies. -/
theorem c5_reconcile_ignores_phase (s : Session) (qi : Nat) (pol : String)
    (acc : Option (List Int)) (now : ℚ)
    (hq : qi < s.questions.length)
    (hp : pol = "void" ∨ pol = "award_all" ∨ pol = "accept_multiple") :
    ∃ s', reconcile_scores s qi pol acc now = .ok s' ∧
      dget s'.reconciliations qi = some (mkReconPolicy pol acc now) ∧
      s'.players = (calculate_scores (withPolicy s qi pol acc now)).players ∧
      s'.status = s.status := by
  unfold reconcile_scores
  rw [if_neg (by omega), if_neg (not_not_intro hp)]
  refine ⟨_, rfl, ?_, rfl, rfl⟩
  exact dget_dset s.reconciliations qi _

/-- Witness for C5: reconciling question 0 of a lobby session with
`award_all` succeeds and installs the policy. -/
theorem c5_reconcile_ignores_phase_witness :
    ∃ s', reconcile_scores c5LobbySession 0 "award_all" none 7 = .ok s' ∧
      dget s'.reconciliations 0 = some (mkReconPolicy "award_all" none 7) := by
  obtain ⟨s', h1, h2, _, _⟩ := c5_reconcile_ignores_phase c5LobbySession 0
    "award_all" none 7 (by decide) (Or.inr (Or.inl rfl))
  exact ⟨s', h1, h2⟩

/-! ### Claim C6 — reveal-result personalization and publication gating -/

/-- Field-by-field description of the per-question reveal record: the
challenge-resolution and AI-verification details appear exactly when they
are `published`, whoever the requester is; the requesting player's own
answer fills `yourAnswer`/`answeredCorrectly`. -/
theorem revealQuestionResult_fields (s' : Session) (rp : Option Player)
    (i : Nat) (q : Question) :
    (revealQuestionResult s' rp (i, q)).question = q.question ∧
    (revealQuestionResult s' rp (i, q)).options = q.options ∧
    (revealQuestionResult s' rp (i, q)).correct = q.correct ∧
    (revealQuestionResult s' rp (i, q)).explanation = q.explanation ∧
    (revealQuestionResult s' rp (i, q)).points = q.points ∧
    ((revealQuestionResult s' rp (i, q)).challengeStatus =
      match dget s'.challenge_resolutions i with
      | some r => if r.published then some r.status else none
      | none => none) ∧
    ((revealQuestionResult s' rp (i, q)).resolutionVerdict =
      match dget s'.challenge_resolutions i with
      | some r => if r.published then r.verdict else none
      | none => none) ∧
    ((revealQuestionResult s' rp (i, q)).aiVerdict =
      match dget s'.ai_verifications i with
      | some v => if v.published then some v.verdict else none
      | none => none) ∧
    ((revealQuestionResult s' rp (i, q)).aiConfidence =
      match dget s'.ai_verifications i with
      | some v => if v.published then some v.confidence else none
      | none => none) ∧
    (rp = none → (revealQuestionResult s' rp (i, q)).yourAnswer = none ∧
      (revealQuestionResult s' rp (i, q)).answeredCorrectly = none) ∧
    (∀ p, rp = some p →
      (revealQuestionResult s' rp (i, q)).yourAnswer = dget p.answers i ∧
      (revealQuestionResult s' rp (i, q)).answeredCorrectly =
        (dget p.answers i).map (fun a => decide (a = q.correct))) := by
  refine ⟨rfl, rfl, rfl, rfl, rfl, ?_, ?_, ?_, ?_, ?_, ?_⟩
  · simp only [revealQuestionResult]
    cases dget s'.challenge_resolutions i with
    | none => rfl
    | some r =>
      by_cases hpub : r.published
      · simp [hpub]
      · simp [hpub]
  · simp only [revealQuestionResult]
    cases dget s'.challenge_resolutions i with
    | none => rfl
    | some r =>
      by_cases hpub : r.published
      · simp [hpub]
      · simp [hpub]
  · simp only [revealQuestionResult]
    cases dget s'.ai_verifications i with
    | none => rfl
    | some v =>
      by_cases hpub : v.published
      · simp [hpub]
      · simp [hpub]
  · simp only [revealQuestionResult]
    cases dget s'.ai_verifications i with
    | none => rfl
    | some v =>
      by_cases hpub : v.published
      · simp [hpub]
      · simp [hpub]
  · intro h
    subst h
    exact ⟨rfl, rfl⟩
  · intro p h
    subst h
    simp only [revealQuestionResult]
    cases dget p.answers i with
    | none => exact ⟨rfl, rfl⟩
    | some a => exact ⟨rfl, rfl⟩

/-- C6 counterexample: `get_reveal_results` gates resolution details on
the `published` flag even when called with **no** player id — the claim
says the host view (no player id) carries *all* recorded resolution
details, but an unpublished resolution is absent from it. -/
theorem c6_counterexample :
    dget c6Session.challenge_resolutions 0 = some c6Resolution ∧
    c6Resolution.published = false ∧
    ((get_reveal_results c6Session none).questions.get? 0).map (·.challengeStatus) =
      some none ∧
    ((get_reveal_results c6Session none).questions.get? 0).map (·.resolutionVerdict) =
      some none := by
  decide

/-- C6 (amended): reveal results gate challenge-resolution and
AI-verification details on the `published` flag for *every* caller —
with or without a player id — and a player id additionally fills in that
player's own chosen option and its correctness; the question metadata
(text, options, correct index, explanation, points) is always included. -/
theorem c6_reveal_personalization (s : Session) (pid : Option String) (i : Nat)
    (q : Question) (hq : s.questions.get? i = some q) :
    ∃ qr, (get_reveal_results s pid).questions.get? i = some qr ∧
      qr.question = q.question ∧ qr.options = q.options ∧ qr.correct = q.correct ∧
      qr.explanation = q.explanation ∧ qr.points = q.points ∧
      (qr.challengeStatus = match dget s.challenge_resolutions i with
        | some r => if r.published then some r.status else none
        | none => none) ∧
      (qr.resolutionVerdict = match dget s.challenge_resolutions i with
        | some r => if r.published then r.verdict else none
        | none => none) ∧
      (qr.aiVerdict = match dget s.ai_verifications i with
        | some v => if v.published then some v.verdict else none
        | none => none) ∧
      (qr.aiConfidence = match dget s.ai_verifications i with
        | some v => if v.published then some v.confidence else none
        | none => none) ∧
      (pid = none → qr.yourAnswer = none ∧ qr.answeredCorrectly = none) ∧
      (∀ ps rp, pid = some ps →
        (calculate_scores s).players.find? (fun p => p.id == ps) = some rp →
        qr.yourAnswer = dget rp.answers i ∧
        qr.answeredCorrectly = (dget rp.answers i).map (fun a => decide (a = q.correct))) := by
  have hq2 : (calculate_scores s).questions.get? i = some q := hq
  have hfields := revealQuestionResult_fields (calculate_scores s)
    (revealRequestingPlayer s pid) i q
  refine ⟨revealQuestionResult (calculate_scores s) (revealRequestingPlayer s pid) (i, q),
    ?_, hfields.1, hfields.2.1, hfields.2.2.1, hfields.2.2.2.1, hfields.2.2.2.2.1,
    hfields.2.2.2.2.2.1, hfields.2.2.2.2.2.2.1, hfields.2.2.2.2.2.2.2.1,
    hfields.2.2.2.2.2.2.2.2.1, ?_, ?_⟩
  · show ((calculate_scores s).questions.enum.map
      (revealQuestionResult (calculate_scores s) (revealRequestingPlayer s pid))).get? i =
        _
    rw [List.get?_map, List.get?_enum, hq2]
    rfl
  · intro hnone
    refine hfields.2.2.2.2.2.2.2.2.2.1 ?_
    rw [hnone]
    rfl
  · intro ps rp hps hfind
    refine hfields.2.2.2.2.2.2.2.2.2.2 rp ?_
    rw [hps]
    show (calculate_scores s).players.find? (fun p => p.id == ps) = some rp
    exact hfind

theorem c6_reveal_personalization_witness :
    (∃ qr, (get_reveal_results c6Session (some "a1")).questions.get? 0 = some qr ∧
      qr.challengeStatus = none ∧ qr.yourAnswer = some 1) ∧
    (∃ qr, (get_reveal_results c6PubSession (some "a1")).questions.get? 0 = some qr ∧
      qr.challengeStatus = some "resolved") := by
  constructor
  · obtain ⟨qr, hget, _, _, _, _, _, hcs, _, _, _, _, hplayer⟩ :=
      c6_reveal_personalization c6Session (some "a1") 0
        { question := "q", options := ["x", "y"], correct := 1 } rfl
    refine ⟨qr, hget, ?_, ?_⟩
    · rw [hcs]
      decide
    · have := hplayer "a1"
        { id := "a1", nickname := "Ann", score := 1, answers := [(0, 1)],
          answer_times := [(0, 1)] } rfl (by decide)
      rw [this.1]
      decide
  · obtain ⟨qr, hget, _, _, _, _, _, hcs, _⟩ :=
      c6_reveal_personalization c6PubSession (some "a1") 0
        { question := "q", options := ["x", "y"], correct := 1 } (by decide)
    refine ⟨qr, hget, ?_⟩
    rw [hcs]
    decide

/-! ### Claims C2 and C8 — the two scoring computations agree -/

theorem pStep_eq (recs : List (Nat × ReconciliationPolicy)) (p : Player)
    (iq : Nat × Question) :
    pStep recs p iq =
      if contribHit recs iq p then { p with score := p.score + iq.2.points } else p := rfl

/-- One `calculate_scores` question iteration is a pointwise map of the
per-player step. -/
theorem scoreStep_eq_map (recs : List (Nat × ReconciliationPolicy)) (ps : List Player)
    (iq : Nat × Question) :
    scoreStep recs ps iq = ps.map (fun p => pStep recs p iq) := by
  cases hres : dget recs iq.1 with
  | none =>
    simp only [scoreStep, hres]
    refine List.map_congr_left ?_
    intro p _
    rw [pStep_eq]
    simp only [contribHit, hres]
    cases ha : dget p.answers iq.1 with
    | none => simp
    | some c =>
      by_cases hc : c = iq.2.correct
      · simp [hc]
      · simp [hc]
  | some policy =>
    simp only [scoreStep, hres]
    by_cases hv : policy.policy = "void"
    · rw [if_pos hv]
      have : ∀ p ∈ ps, pStep recs p iq = p := by
        intro p _
        rw [pStep_eq]
        simp [contribHit, hres, hv]
      rw [List.map_congr_left this]
      simp
    · rw [if_neg hv]
      by_cases haw : policy.policy = "award_all"
      · rw [if_pos haw]
        refine List.map_congr_left ?_
        intro p _
        rw [pStep_eq]
        simp [contribHit, hres, hv, haw]
      · rw [if_neg haw]
        by_cases hac : policy.policy = "accept_multiple"
        · rw [if_pos hac]
          refine List.map_congr_left ?_
          intro p _
          rw [pStep_eq]
          simp only [contribHit, hres, hv, haw, hac, if_neg, if_pos, if_false, if_true]
          cases ha : dget p.answers iq.1 with
          | none => simp
          | some c =>
            by_cases hm : c ∈ iq.2.correct :: policy.acceptedAnswers.getD []
            · simp [hm]
            · simp [hm]
        · rw [if_neg hac]
          refine List.map_congr_left ?_
          intro p _
          rw [pStep_eq]
          simp only [contribHit, hres, hv, haw, hac, if_false]
          cases ha : dget p.answers iq.1 with
          | none => simp
          | some c =>
            by_cases hc : c = iq.2.correct
            · simp [hc]
            · simp [hc]

/-- Folding pointwise maps over a list of steps is mapping per-element
folds. -/
theorem foldl_map_comm (g : β → α → α) (l : List α) (xs : List β) :
    xs.foldl (fun acc x => acc.map (g x)) l =
      l.map (fun a => xs.foldl (fun a x => g x a) a) := by
  induction xs generalizing l with
  | nil => simp
  | cons x xs ih =>
    simp only [List.foldl_cons]
    rw [ih (l.map (g x)), List.map_map]
    rfl

/-- `calculate_scores` in per-player normal form. -/
theorem calculate_scores_players (s : Session) :
    (calculate_scores s).players =
      s.players.map (fun p =>
        (s.questions.enum).foldl (pStep s.reconciliations) { p with score := 0 }) := by
  show (s.questions.enum).foldl (scoreStep s.reconciliations)
      (s.players.map (fun p => { p with score := 0 })) = _
  have hstep : ∀ (ps : List Player) (iq : Nat × Question),
      scoreStep s.reconciliations ps iq = ps.map (fun p => pStep s.reconciliations p iq) :=
    scoreStep_eq_map s.reconciliations
  calc (s.questions.enum).foldl (scoreStep s.reconciliations)
        (s.players.map (fun p => { p with score := 0 }))
      = (s.questions.enum).foldl (fun ps iq => ps.map (fun p => pStep s.reconciliations p iq))
          (s.players.map (fun p => { p with score := 0 })) := by
        congr 1
        funext ps iq
        exact hstep ps iq
    _ = (s.players.map (fun p => { p with score := 0 })).map
          (fun a => (s.questions.enum).foldl (fun a iq => pStep s.reconciliations a iq) a) :=
        foldl_map_comm _ _ _
    _ = _ := by
        rw [List.map_map]
        rfl

theorem lbBump_eq (es : List LBEntry) (pid : String) (pts : Int) :
    lbBump es pid pts = es.map (fun e => if e.id = pid then bumpE e pts else e) := rfl

/-- A bump-by-id fold leaves an entry alone when its id is not among the
folded players' ids. -/
theorem foldl_lbBump_skip (l : List Player) (hit : Player → Bool) (pts : Int)
    (e : LBEntry) (es : List LBEntry) (h : ∀ p ∈ l, e.id ≠ p.id) :
    l.foldl (fun es p => if hit p then lbBump es p.id pts else es) (e :: es) =
      e :: l.foldl (fun es p => if hit p then lbBump es p.id pts else es) es := by
  induction l generalizing es with
  | nil => rfl
  | cons p l ih =>
    simp only [List.foldl_cons]
    by_cases hh : hit p = true
    · rw [if_pos hh, if_pos hh]
      have he : e.id ≠ p.id := h p (List.mem_cons_self _ _)
      have hsplit : lbBump (e :: es) p.id pts = e :: lbBump es p.id pts := by
        simp [lbBump, he]
      rw [hsplit]
      exact ih _ (fun q hq => h q (List.mem_cons_of_mem _ hq))
    · rw [if_neg hh, if_neg hh]
      exact ih _ (fun q hq => h q (List.mem_cons_of_mem _ hq))

/-- With pairwise-distinct player ids, the dict-style bump-by-id loop over
all players is a pointwise update of the parallel entry list. -/
theorem foldl_lbBump (l : List Player) (F : Player → LBEntry) (hit : Player → Bool)
    (pts : Int) (hid : ∀ p, (F p).id = p.id) (hnd : (l.map (·.id)).Nodup) :
    l.foldl (fun es p => if hit p then lbBump es p.id pts else es) (l.map F) =
      l.map (fun p => if hit p then bumpE (F p) pts else F p) := by
  induction l with
  | nil => rfl
  | cons p l ih =>
    simp only [List.map_cons, List.nodup_cons] at hnd
    have hnotin : ∀ q ∈ l, q.id ≠ p.id := by
      intro q hq heq
      exact hnd.1 (heq ▸ List.mem_map_of_mem _ hq)
    simp only [List.map_cons, List.foldl_cons]
    have hstep : (if hit p then lbBump (F p :: l.map F) p.id pts else (F p :: l.map F)) =
        (if hit p then bumpE (F p) pts else F p) :: l.map F := by
      by_cases hh : hit p = true
      · rw [if_pos hh, if_pos hh]
        simp only [lbBump, List.map_cons, List.map_map]
        congr 1
        · rw [if_pos (hid p)]
          rfl
        · refine List.map_congr_left ?_
          intro q hq
          show (if (F q).id = p.id then bumpE (F q) pts else F q) = F q
          rw [hid q, if_neg (hnotin q hq)]
      · rw [if_neg hh, if_neg hh]
    rw [hstep]
    have he0 : (if hit p then bumpE (F p) pts else F p).id = p.id := by
      by_cases hh : hit p = true
      · rw [if_pos hh]
        exact hid p
      · rw [if_neg hh]
        exact hid p
    rw [foldl_lbBump_skip l hit pts _ _
      (fun q hq => by rw [he0]; exact (hnotin q hq).symm)]
    rw [ih hnd.2]

/-- One `get_live_leaderboard` question iteration, on an entry list
parallel to the players, is the pointwise per-entry step. -/
theorem lbStep_eq (recs : List (Nat × ReconciliationPolicy)) (l : List Player)
    (F : Player → LBEntry) (hid : ∀ p, (F p).id = p.id)
    (hnd : (l.map (·.id)).Nodup) (iq : Nat × Question) :
    lbStep recs l (l.map F) iq = l.map (fun p => eStep recs p (F p) iq) := by
  have hconvEq : (fun (es : List LBEntry) (p : Player) =>
      match dget p.answers iq.1 with
      | some choice => if choice = iq.2.correct then lbBump es p.id iq.2.points else es
      | none => es) =
      (fun es p => if (match dget p.answers iq.1 with
        | some choice => decide (choice = iq.2.correct)
        | none => false) then lbBump es p.id iq.2.points else es) := by
    funext es p
    cases dget p.answers iq.1 with
    | none => simp
    | some c =>
      by_cases hc : c = iq.2.correct
      · simp [hc]
      · simp [hc]
  cases hres : dget recs iq.1 with
  | none =>
    simp only [lbStep, hres]
    rw [hconvEq, foldl_lbBump l F _ iq.2.points hid hnd]
    refine List.map_congr_left ?_
    intro p _
    simp only [eStep, contribHit, hres]
  | some policy =>
    simp only [lbStep, hres]
    by_cases hv : policy.policy = "void"
    · rw [if_pos hv]
      have hE : ∀ p ∈ l, eStep recs p (F p) iq = F p := by
        intro p _
        simp [eStep, contribHit, hres, hv]
      rw [List.map_congr_left hE]
    · rw [if_neg hv]
      by_cases haw : policy.policy = "award_all"
      · rw [if_pos haw, List.map_map]
        refine List.map_congr_left ?_
        intro p _
        show bumpE (F p) iq.2.points = eStep recs p (F p) iq
        simp [eStep, contribHit, hres, hv, haw]
      · rw [if_neg haw]
        by_cases hac : policy.policy = "accept_multiple"
        · rw [if_pos hac]
          have hconvMem : (fun (es : List LBEntry) (p : Player) =>
              match dget p.answers iq.1 with
              | some choice =>
                if choice ∈ iq.2.correct :: policy.acceptedAnswers.getD [] then
                  lbBump es p.id iq.2.points
                else es
              | none => es) =
              (fun es p => if (match dget p.answers iq.1 with
                | some choice =>
                  decide (choice ∈ iq.2.correct :: policy.acceptedAnswers.getD [])
                | none => false) then lbBump es p.id iq.2.points else es) := by
            funext es p
            cases dget p.answers iq.1 with
            | none => simp
            | some c =>
              by_cases hc : c ∈ iq.2.correct :: policy.acceptedAnswers.getD []
              · simp [hc]
              · simp [hc]
          rw [hconvMem, foldl_lbBump l F _ iq.2.points hid hnd]
          refine List.map_congr_left ?_
          intro p _
          simp only [eStep, contribHit, hres, if_neg hv, if_neg haw, if_pos hac]
        · rw [if_neg hac]
          rw [hconvEq, foldl_lbBump l F _ iq.2.points hid hnd]
          refine List.map_congr_left ?_
          intro p _
          simp only [eStep, contribHit, hres, if_neg hv, if_neg haw, if_neg hac]

/-- The `get_live_leaderboard` question fold, entry by entry. -/
theorem lb_entries_char (recs : List (Nat × ReconciliationPolicy)) (l : List Player)
    (hnd : (l.map (·.id)).Nodup) (qs : List (Nat × Question))
    (F : Player → LBEntry) (hid : ∀ p, (F p).id = p.id) :
    qs.foldl (lbStep recs l) (l.map F) =
      l.map (fun p => qs.foldl (eStep recs p) (F p)) := by
  induction qs generalizing F with
  | nil => rfl
  | cons iq qs ih =>
    rw [List.foldl_cons, lbStep_eq recs l F hid hnd iq]
    have hid2 : ∀ p, (eStep recs p (F p) iq).id = p.id := by
      intro p
      by_cases hh : contribHit recs iq p = true
      · simp only [eStep, if_pos hh]
        exact hid p
      · simp only [eStep, if_neg hh]
        exact hid p
    rw [ih _ hid2]
    rfl

theorem pFold_fields (recs : List (Nat × ReconciliationPolicy))
    (qs : List (Nat × Question)) (p : Player) :
    (qs.foldl (pStep recs) p).id = p.id ∧
    (qs.foldl (pStep recs) p).nickname = p.nickname ∧
    (qs.foldl (pStep recs) p).answers = p.answers ∧
    (qs.foldl (pStep recs) p).answer_times = p.answer_times := by
  induction qs generalizing p with
  | nil => exact ⟨rfl, rfl, rfl, rfl⟩
  | cons iq qs ih =>
    rw [List.foldl_cons]
    have hrest := ih (pStep recs p iq)
    have hone : (pStep recs p iq).id = p.id ∧ (pStep recs p iq).nickname = p.nickname ∧
        (pStep recs p iq).answers = p.answers ∧
        (pStep recs p iq).answer_times = p.answer_times := by
      by_cases hh : contribHit recs iq p = true
      · simp [pStep, hh]
      · simp [pStep, hh]
    exact ⟨hrest.1.trans hone.1, hrest.2.1.trans hone.2.1,
           hrest.2.2.1.trans hone.2.2.1, hrest.2.2.2.trans hone.2.2.2⟩

theorem eFold_fields (recs : List (Nat × ReconciliationPolicy))
    (qs : List (Nat × Question)) (p : Player) (e : LBEntry) :
    (qs.foldl (eStep recs p) e).id = e.id ∧
    (qs.foldl (eStep recs p) e).nickname = e.nickname ∧
    (qs.foldl (eStep recs p) e).totalAnswers = e.totalAnswers ∧
    (qs.foldl (eStep recs p) e).totalTime = e.totalTime := by
  induction qs generalizing e with
  | nil => exact ⟨rfl, rfl, rfl, rfl⟩
  | cons iq qs ih =>
    rw [List.foldl_cons]
    have hrest := ih (eStep recs p e iq)
    have hone : (eStep recs p e iq).id = e.id ∧ (eStep recs p e iq).nickname = e.nickname ∧
        (eStep recs p e iq).totalAnswers = e.totalAnswers ∧
        (eStep recs p e iq).totalTime = e.totalTime := by
      by_cases hh : contribHit recs iq p = true
      · simp [eStep, bumpE, hh]
      · simp [eStep, hh]
    exact ⟨hrest.1.trans hone.1, hrest.2.1.trans hone.2.1,
           hrest.2.2.1.trans hone.2.2.1, hrest.2.2.2.trans hone.2.2.2⟩

/-- The two per-question steps add the same amount: the entry fold of a
player and the score fold of that player stay score-equal. -/
theorem eFold_pFold_score (recs : List (Nat × ReconciliationPolicy))
    (qs : List (Nat × Question)) (p0 : Player) :
    ∀ (e : LBEntry) (a : Player), e.score = a.score → a.answers = p0.answers →
      (qs.foldl (eStep recs p0) e).score = (qs.foldl (pStep recs) a).score := by
  induction qs with
  | nil =>
    intro e a h _
    exact h
  | cons iq qs ih =>
    intro e a hsc hans
    rw [List.foldl_cons, List.foldl_cons]
    have hcb : contribHit recs iq a = contribHit recs iq p0 := by
      simp only [contribHit, hans]
    apply ih
    · simp only [eStep, pStep]
      rw [hcb]
      by_cases hh : contribHit recs iq p0 = true
      · rw [if_pos hh, if_pos hh]
        simp [bumpE, hsc]
      · rw [if_neg hh, if_neg hh]
        exact hsc
    · simp only [pStep]
      by_cases hh : contribHit recs iq a = true
      · rw [if_pos hh]
        exact hans
      · rw [if_neg hh]
        exact hans

theorem mem_insort (lt : α → α → Bool) (x a : α) (l : List α) :
    a ∈ insort lt x l ↔ a = x ∨ a ∈ l := by
  induction l with
  | nil => simp [insort]
  | cons y ys ih =>
    simp only [insort]
    by_cases h : lt y x = true
    · rw [if_pos h]
      simp only [List.mem_cons, ih]
      tauto
    · rw [if_neg h]
      simp only [List.mem_cons]

theorem mem_ssort (lt : α → α → Bool) (a : α) (l : List α) :
    a ∈ ssort lt l ↔ a ∈ l := by
  induction l with
  | nil => simp [ssort]
  | cons x xs ih => simp [ssort, mem_insort, ih]

theorem lb_entries_final (s : Session) (hnd : (s.players.map (·.id)).Nodup) :
    (s.questions.enum).foldl (lbStep s.reconciliations s.players)
        (s.players.map lbInit) =
      s.players.map (lbEntryOf s) := by
  exact lb_entries_char s.reconciliations s.players hnd s.questions.enum lbInit
    (fun p => rfl)

theorem lbEntryOf_score (s : Session) (p : Player) :
    (lbEntryOf s p).score = (calcPlayerOf s p).score := by
  exact eFold_pFold_score s.reconciliations s.questions.enum p (lbInit p)
    { p with score := 0 } rfl rfl

theorem calcPlayerOf_id (s : Session) (p : Player) : (calcPlayerOf s p).id = p.id :=
  (pFold_fields s.reconciliations s.questions.enum _).1

theorem lbEntryOf_id (s : Session) (p : Player) : (lbEntryOf s p).id = p.id :=
  (eFold_fields s.reconciliations s.questions.enum p (lbInit p)).1

/-- C2: the live leaderboard's score for a player equals the score
`calculate_scores` computes for that player, over the same questions,
answers and reconciliation policies. -/
theorem c2_leaderboard_matches_calculate (s : Session)
    (hnd : (s.players.map (·.id)).Nodup) :
    ∀ e ∈ get_live_leaderboard s, ∀ p ∈ (calculate_scores s).players,
      e.id = p.id → e.score = p.score := by
  intro e he p hp heq
  obtain ⟨ie, hie, hmk⟩ := List.mem_map.mp he
  have h2 : ie.2 ∈ ssort lbLt ((s.questions.enum).foldl
      (lbStep s.reconciliations s.players) (s.players.map lbInit)) :=
    List.snd_mem_of_mem_enum hie
  have h3 := (mem_ssort lbLt ie.2 _).mp h2
  rw [lb_entries_final s hnd] at h3
  obtain ⟨p0, hp0, hFe⟩ := List.mem_map.mp h3
  rw [calculate_scores_players] at hp
  obtain ⟨p1, hp1, hFp⟩ := List.mem_map.mp hp
  have hFp : calcPlayerOf s p1 = p := hFp
  have heid : e.id = p0.id := by
    rw [← hmk, ← hFe]
    exact lbEntryOf_id s p0
  have hpid : p.id = p1.id := by
    rw [← hFp]
    exact calcPlayerOf_id s p1
  have hp01 : p0 = p1 :=
    List.inj_on_of_nodup_map hnd hp0 hp1 (by rw [← heid, heq, hpid])
  rw [← hmk, ← hFe, ← hFp, ← hp01]
  show (lbEntryOf s p0).score = (calcPlayerOf s p0).score
  exact lbEntryOf_score s p0

/-- Witness for C2 on a concrete two-player session with an
`accept_multiple` policy active. -/
theorem c2_leaderboard_matches_calculate_witness :
    (c2Session.players.map (·.id)).Nodup ∧
    ∀ e ∈ get_live_leaderboard c2Session, ∀ p ∈ (calculate_scores c2Session).players,
      e.id = p.id → e.score = p.score := by
  exact ⟨by decide, c2_leaderboard_matches_calculate c2Session (by decide)⟩

theorem insort_map (lt : β → β → Bool) (f : α → β) (x : α) (l : List α) :
    insort lt (f x) (l.map f) = (insort (fun a b => lt (f a) (f b)) x l).map f := by
  induction l with
  | nil => rfl
  | cons y ys ih =>
    simp only [List.map_cons, insort]
    by_cases h : lt (f y) (f x) = true
    · rw [if_pos h, if_pos h, List.map_cons, ih]
    · rw [if_neg h, if_neg h]
      rfl

/-- The stable sort commutes with a map that is compatible with the
comparator. -/
theorem ssort_map (lt : β → β → Bool) (f : α → β) (l : List α) :
    ssort lt (l.map f) = (ssort (fun a b => lt (f a) (f b)) l).map f := by
  induction l with
  | nil => rfl
  | cons x xs ih =>
    simp only [List.map_cons, ssort]
    rw [ih, insort_map]

theorem insort_length (lt : α → α → Bool) (x : α) (l : List α) :
    (insort lt x l).length = l.length + 1 := by
  induction l with
  | nil => rfl
  | cons y ys ih =>
    simp only [insort]
    by_cases h : lt y x = true
    · rw [if_pos h]
      simp [ih]
    · rw [if_neg h]
      rfl

theorem ssort_length (lt : α → α → Bool) (l : List α) :
    (ssort lt l).length = l.length := by
  induction l with
  | nil => rfl
  | cons x xs ih =>
    simp only [ssort]
    rw [insort_length, ih]
    rfl

theorem lbEntryOf_totalTime (s : Session) (p : Player) :
    (lbEntryOf s p).totalTime = get_total_time p :=
  (eFold_fields s.reconciliations s.questions.enum p (lbInit p)).2.2.2

theorem calcPlayerOf_time (s : Session) (p : Player) :
    get_total_time (calcPlayerOf s p) = get_total_time p := by
  unfold get_total_time calcPlayerOf
  rw [(pFold_fields s.reconciliations s.questions.enum _).2.2.2]

/-- C8: live-leaderboard ranking and reveal ranking follow one shared
rule — same order (by score descending, total answer time ascending,
stable), same scores, and rank = 1-based position with ties never
collapsed (the rank list is always `[1, …, n]`); on the concrete
scenario session, Ann gets score 1 rank 1 and Bo score 0 rank 2. -/
theorem c8_shared_ranking :
    (∀ s : Session, (s.players.map (·.id)).Nodup →
      (get_live_leaderboard s).map (fun e => (e.id, e.score, e.rank)) =
        ((get_reveal_results s none).players).map (fun r => (r.id, r.score, r.rank)) ∧
      ((get_reveal_results s none).players).map (fun r => r.rank) =
        (List.range s.players.length).map (· + 1)) ∧
    ((get_reveal_results c8Scenario none).players).map
      (fun r => (r.nickname, r.score, r.rank)) = [("Ann", 1, 1), ("Bo", 0, 2)] := by
  constructor
  · intro s hnd
    constructor
    · have hlb : (get_live_leaderboard s).map (fun e => (e.id, e.score, e.rank)) =
          (ssort (fun a b => lbLt (lbEntryOf s a) (lbEntryOf s b)) s.players).enum.map
            (fun ip => ((lbEntryOf s ip.2).id, (lbEntryOf s ip.2).score, ip.1 + 1)) := by
        simp only [get_live_leaderboard]
        rw [lb_entries_final s hnd, ssort_map, List.enum_map, List.map_map, List.map_map]
        rfl
      have hrv : ((get_reveal_results s none).players).map
            (fun r => (r.id, r.score, r.rank)) =
          (ssort (fun a b => playerLt (calcPlayerOf s a) (calcPlayerOf s b)) s.players).enum.map
            (fun ip => ((calcPlayerOf s ip.2).id, (calcPlayerOf s ip.2).score, ip.1 + 1)) := by
        simp only [get_reveal_results]
        rw [calculate_scores_players, ssort_map, List.enum_map, List.map_map, List.map_map]
        rfl
      rw [hlb, hrv]
      have hcmp : (fun a b => lbLt (lbEntryOf s a) (lbEntryOf s b)) =
          (fun a b => playerLt (calcPlayerOf s a) (calcPlayerOf s b)) := by
        funext a b
        simp only [lbLt, playerLt]
        rw [lbEntryOf_score, lbEntryOf_score, lbEntryOf_totalTime, lbEntryOf_totalTime,
            calcPlayerOf_time, calcPlayerOf_time]
      rw [hcmp]
      refine List.map_congr_left ?_
      intro ip _
      rw [lbEntryOf_id, calcPlayerOf_id, lbEntryOf_score]
    · have hmap : ((get_reveal_results s none).players).map (fun r => r.rank) =
          (ssort playerLt (calculate_scores s).players).enum.map (fun ip => ip.1 + 1) := by
        simp only [get_reveal_results]
        rw [List.map_map]
        rfl
      have hlen : (ssort playerLt (calculate_scores s).players).length =
          s.players.length := by
        rw [ssort_length]
        simp [calculate_scores_players]
      rw [hmap]
      calc (ssort playerLt (calculate_scores s).players).enum.map (fun ip => ip.1 + 1)
          = ((ssort playerLt (calculate_scores s).players).enum.map Prod.fst).map
              (· + 1) := by
            rw [List.map_map]
            rfl
        _ = (List.range (ssort playerLt (calculate_scores s).players).length).map
              (· + 1) := by
            rw [List.enum_map_fst]
        _ = (List.range s.players.length).map (· + 1) := by
            rw [hlen]
  · decide

/-- Witness for C8: on the scenario session the two rankings coincide
and the rank list is `[1, 2]`. -/
theorem c8_shared_ranking_witness :
    (get_live_leaderboard c8Scenario).map (fun e => (e.id, e.score, e.rank)) =
      ((get_reveal_results c8Scenario none).players).map
        (fun r => (r.id, r.score, r.rank)) ∧
    ((get_reveal_results c8Scenario none).players).map (fun r => r.rank) =
      (List.range c8Scenario.players.length).map (· + 1) := by
  exact c8_shared_ranking.1 c8Scenario (by decide)

/-! ### Claim C9 — the score-audit ledger -/

theorem calculate_scores_audit (s : Session) :
    (calculate_scores s).score_audit = s.score_audit := rfl

theorem auto_advance_audit (s : Session) (now : ℚ) :
    (auto_advance_question s now).score_audit = s.score_audit := by
  unfold auto_advance_question
  split
  · rfl
  · rfl

theorem join_session_audit {s s' : Session} {n i : String}
    (h : join_session s n i = .ok s') : s'.score_audit = s.score_audit := by
  unfold join_session at h
  split at h
  · exact absurd h (by simp)
  · split at h
    · exact absurd h (by simp)
    · cases h
      rfl

theorem upload_questions_audit {s s' : Session} {qs : List Question}
    (h : upload_questions s qs = .ok s') : s'.score_audit = s.score_audit := by
  unfold upload_questions at h
  split at h
  · exact absurd h (by simp)
  · cases h
    rfl

theorem append_questions_audit {s s' : Session} {qs : List Question}
    (h : append_questions s qs = .ok s') : s'.score_audit = s.score_audit := by
  unfold append_questions at h
  split at h
  · exact absurd h (by simp)
  · split at h
    · exact absurd h (by simp)
    · cases h
      rfl

theorem start_round_audit {s s' : Session} {now : ℚ}
    (h : start_round s now = .ok s') : s'.score_audit = s.score_audit := by
  unfold start_round at h
  split at h
  · exact absurd h (by simp)
  · cases h
    rfl

theorem next_question_audit {s s' : Session} {now : ℚ}
    (h : next_question s now = .ok s') : s'.score_audit = s.score_audit := by
  unfold next_question at h
  split at h
  · exact absurd h (by simp)
  · split at h
    · exact absurd h (by simp)
    · cases h
      rfl

theorem reveal_results_audit {s s' : Session}
    (h : reveal_results s = .ok s') : s'.score_audit = s.score_audit := by
  unfold reveal_results at h
  cases h
  rfl

theorem submit_answer_audit {s s' : Session} {pid : String} {qi : Nat} {c : Int}
    {ms : Option Int} {now : ℚ}
    (h : submit_answer s pid qi c ms now = .ok s') :
    s'.score_audit = s.score_audit := by
  unfold submit_answer at h
  cases hf : s.players.find? (fun p => p.id == pid) with
  | none =>
    rw [hf] at h
    exact absurd h (by simp)
  | some p =>
    rw [hf] at h
    dsimp only at h
    by_cases b1 : s.status = Status.playing
    · by_cases b2 : qi = s.current_question_index
      · subst b2
        by_cases b3 : (dget p.answers s.current_question_index).isSome = true
        · simp [b1, b3] at h
        · rw [if_neg (by simp [b1]), if_neg (by simp), if_neg b3] at h
          simp only [Except.ok.injEq] at h
          subst h
          split
          · split
            · exact auto_advance_audit _ now
            · rfl
          · rfl
      · simp [b1, b2] at h
    · simp [b1] at h

theorem submit_challenge_audit {s s' : Session} {pid : String} {qi : Nat}
    {cat note : Option String} {src : String} {now : ℚ}
    (h : submit_challenge s pid qi cat note src now = .ok s') :
    s'.score_audit = s.score_audit := by
  unfold submit_challenge at h
  cases hf : s.players.find? (fun p => p.id == pid) with
  | none =>
    rw [hf] at h
    exact absurd h (by simp)
  | some p =>
    rw [hf] at h
    dsimp only at h
    by_cases hc : s.questions.length ≤ qi
    · simp [hc] at h
    · rw [if_neg hc] at h
      simp only [Except.ok.injEq] at h
      subst h
      rfl

theorem resolve_challenge_audit {s s' : Session} {qi : Nat} {stat : String}
    {verdict note : Option String} {publish : Bool} {now : ℚ}
    (h : resolve_challenge s qi stat verdict note publish now = .ok s') :
    s'.score_audit = s.score_audit := by
  unfold resolve_challenge at h
  split at h
  · exact absurd h (by simp)
  · cases h
    rfl

theorem publish_ai_verification_audit {s s' : Session} {qi : Nat} {publish : Bool}
    {now : ℚ} (h : publish_ai_verification s qi publish now = .ok s') :
    s'.score_audit = s.score_audit := by
  unfold publish_ai_verification at h
  cases hv : dget s.ai_verifications qi with
  | none =>
    rw [hv] at h
    exact absurd h (by simp)
  | some v =>
    rw [hv] at h
    simp only [Except.ok.injEq] at h
    subst h
    rfl

/-- A successful reconcile appends exactly one audit entry, recording the
question index, the applied policy, the timestamp and every player's
score delta (new score minus that player's score before the call). -/
theorem reconcile_scores_audit {s s' : Session} {qi : Nat} {pol : String}
    {acc : Option (List Int)} {now : ℚ}
    (h : reconcile_scores s qi pol acc now = .ok s') :
    s'.score_audit = s.score_audit ++
      [{ questionIndex := qi, policy := pol, appliedAt := now,
         deltas := s'.players.map (fun p =>
           (p.id, p.score - ((sget (s.players.map (fun q => (q.id, q.score))) p.id).getD 0))) }] := by
  unfold reconcile_scores at h
  split at h
  · exact absurd h (by simp)
  · split at h
    · exact absurd h (by simp)
    · simp only [Except.ok.injEq] at h
      subst h
      rfl

/-- C9: the audit ledger is append-only — no exposed operation mutates or
removes existing `ScoreAuditEntry` records — and every successful
reconciliation appends exactly one new entry carrying the applied policy,
the question index and each player's score delta. -/
theorem c9_audit_append_only :
    (∀ (op : Op) (s : Session), ∃ t, (applyOp op s).score_audit = s.score_audit ++ t) ∧
    (∀ (s : Session) (qi : Nat) (pol : String) (acc : Option (List Int)) (now : ℚ)
      (s' : Session), reconcile_scores s qi pol acc now = .ok s' →
      s'.score_audit = s.score_audit ++
        [{ questionIndex := qi, policy := pol, appliedAt := now,
           deltas := s'.players.map (fun p =>
             (p.id, p.score - ((sget (s.players.map (fun q => (q.id, q.score))) p.id).getD 0))) }]) := by
  constructor
  · intro op s
    cases hstep : stepOp op s with
    | error e =>
      rw [applyOp_error hstep]
      exact ⟨[], by simp⟩
    | ok s' =>
      rw [applyOp_ok hstep]
      cases op with
      | join n i => exact ⟨[], by rw [join_session_audit hstep]; simp⟩
      | upload qs => exact ⟨[], by rw [upload_questions_audit hstep]; simp⟩
      | appendQs qs => exact ⟨[], by rw [append_questions_audit hstep]; simp⟩
      | start now => exact ⟨[], by rw [start_round_audit hstep]; simp⟩
      | next now => exact ⟨[], by rw [next_question_audit hstep]; simp⟩
      | reveal => exact ⟨[], by rw [reveal_results_audit hstep]; simp⟩
      | answer pid qi c ms now => exact ⟨[], by rw [submit_answer_audit hstep]; simp⟩
      | timerExpiry qi now =>
        have h' : Except.ok (ε := Err) (run_question_timer_expiry s qi now) = .ok s' := hstep
        cases h'
        refine ⟨[], ?_⟩
        unfold run_question_timer_expiry
        split
        · rw [auto_advance_audit]
          simp
        · simp
      | challenge pid qi cat note src now =>
        exact ⟨[], by rw [submit_challenge_audit hstep]; simp⟩
      | resolve qi stat verdict note publish now =>
        exact ⟨[], by rw [resolve_challenge_audit hstep]; simp⟩
      | aiPublish qi publish now =>
        exact ⟨[], by rw [publish_ai_verification_audit hstep]; simp⟩
      | reconcile qi pol acc now =>
        exact ⟨_, reconcile_scores_audit hstep⟩
  · intro s qi pol acc now s' h
    exact reconcile_scores_audit h

/-- Witness for C9: voiding question 0 after reveal drops every player's
points for it to zero and appends exactly one audit entry with each
player's delta (Ann −1, Bo 0). -/
theorem c9_audit_append_only_witness :
    ∃ s', reconcile_scores c9Session 0 "void" none 9 = .ok s' ∧
      s'.score_audit = [{ questionIndex := 0, policy := "void", appliedAt := 9,
                          deltas := [("ann", -1), ("bo", 0)] }] ∧
      s'.players.map (fun p => (p.id, p.score)) = [("ann", 0), ("bo", 0)] := by
  refine ⟨_, rfl, ?_, by decide⟩
  have h := c9_audit_append_only.2 c9Session 0 "void" none 9 _ rfl
  rw [h]
  decide

end PulseQuiz
